import Mathlib

/-!
Verification development for the limitless-life-workers sync & analysis
pipeline.  The definitions below are shallow embeddings of the TypeScript
source (src/src/services/sync.ts, src/src/services/analysis.ts,
src/src/services/limitless.ts, src/src/services/state.ts,
src/lib/lifelog-transformers.ts, src/lib/hash.ts and the drizzle
schema).  Platform primitives
(Date parsing, locale formatting, WebCrypto SHA-1, the wall clock) are
threaded through as explicit parameters, since only their functional
behaviour (same input, same output) is relied upon by the pipeline.
-/

/-- Left brace character, written via its code point. -/
def lbrace : Char := Char.ofNat 123

/-- Right brace character, written via its code point. -/
def rbrace : Char := Char.ofNat 125

/-- JavaScript truthiness of a nullable string: `undefined`/`null` and the
empty string are falsy, every other string truthy. -/
def jsTruthyStr : Option String → Bool
  | none => false
  | some s => s ≠ ""

/-- Nullish coalescing `a ?? b` for nullable values. -/
def nullish (a : Option α) (b : Option α) : Option α :=
  match a with
  | some v => some v
  | none => b

/-- Nullish coalescing `a ?? b` where the fallback is always present. -/
def nullishD (a : Option α) (b : α) : α :=
  match a with
  | some v => v
  | none => b

/-- One node of the hierarchical content tree returned by the provider
(type `LimitlessContentNode` in src/src/types/limitless.ts).  Optional
numeric offsets are carried as integers. -/
inductive LimitlessContentNode where
  | mk (ty : Option String) (content : Option String)
       (startTime : Option String) (endTime : Option String)
       (startOffsetMs : Option Int) (endOffsetMs : Option Int)
       (speakerName : Option String) (speakerIdentifier : Option String)
       (children : List LimitlessContentNode)

namespace LimitlessContentNode

def ty : LimitlessContentNode → Option String
  | .mk t _ _ _ _ _ _ _ _ => t

def content : LimitlessContentNode → Option String
  | .mk _ c _ _ _ _ _ _ _ => c

def startTime : LimitlessContentNode → Option String
  | .mk _ _ s _ _ _ _ _ _ => s

def endTime : LimitlessContentNode → Option String
  | .mk _ _ _ e _ _ _ _ _ => e

def startOffsetMs : LimitlessContentNode → Option Int
  | .mk _ _ _ _ s _ _ _ _ => s

def endOffsetMs : LimitlessContentNode → Option Int
  | .mk _ _ _ _ _ e _ _ _ => e

def speakerName : LimitlessContentNode → Option String
  | .mk _ _ _ _ _ _ s _ _ => s

def speakerIdentifier : LimitlessContentNode → Option String
  | .mk _ _ _ _ _ _ _ s _ => s

def children : LimitlessContentNode → List LimitlessContentNode
  | .mk _ _ _ _ _ _ _ _ c => c

end LimitlessContentNode

/-- One lifelog item returned by the provider (type `LimitlessLifelog`).
`contents` is `none` when the provider omitted the field. -/
structure LimitlessLifelog where
  id : String
  title : Option String
  markdown : Option String
  contents : Option (List LimitlessContentNode)
  startTime : Option String
  endTime : Option String
  isStarred : Option Bool
  updatedAt : Option String

/-- A row of the `lifelog_segments` table (values bound by the insert in
`flattenNodes`; the auto-increment surrogate id is not modelled). -/
structure NewLifelogSegment where
  entryId : String
  nodeId : String
  path : String
  nodeType : String
  content : Option String
  startTime : Option String
  endTime : Option String
  startOffsetMs : Option Int
  endOffsetMs : Option Int
  speakerName : Option String
  speakerIdentifier : Option String
deriving Repr, DecidableEq

/-- Dotted sibling-index path: JavaScript `pathArray.join(".")`. -/
def dotJoin (path : List Nat) : String :=
  String.intercalate "." (path.map toString)

/-- The segment built for one node in `flattenNodes` (the `current`
record): node id is entry id, a colon, and the dotted path. -/
def segmentOfNode (lifelogId : String) (pathArray : List Nat)
    (n : LimitlessContentNode) : NewLifelogSegment :=
  { entryId := lifelogId
    nodeId := lifelogId ++ ":" ++ dotJoin pathArray
    path := dotJoin pathArray
    nodeType := nullishD n.ty "paragraph"
    content := n.content
    startTime := n.startTime
    endTime := n.endTime
    startOffsetMs := n.startOffsetMs
    endOffsetMs := n.endOffsetMs
    speakerName := n.speakerName
    speakerIdentifier := n.speakerIdentifier }

/-- Depth-first flattening of a node list (`flattenNodes` in
src/lib/lifelog-transformers.ts).  The JavaScript `flatMap` with index is
unfolded into a recursion carrying the current sibling index `i`: each
node contributes its own segment followed by the flattening of its
children, then the remaining siblings follow. -/
def flattenFrom (lifelogId : String) (parents : List Nat) (i : Nat) :
    List LimitlessContentNode → List NewLifelogSegment
  | [] => []
  | n :: rest =>
      segmentOfNode lifelogId (parents ++ [i]) n ::
        (flattenFrom lifelogId (parents ++ [i]) 0 n.children ++
          flattenFrom lifelogId parents (i + 1) rest)
termination_by ns => sizeOf ns
decreasing_by
  all_goals cases n
  all_goals simp [LimitlessContentNode.children]
  all_goals omega

/-- Entry point of the flattening pass (`flattenNodes(nodes, lifelogId)`
with the default empty parent path). -/
def flattenNodes (nodes : List LimitlessContentNode) (lifelogId : String) :
    List NewLifelogSegment :=
  flattenFrom lifelogId [] 0 nodes

/-- Conversion of a lifelog to its segment rows (`lifelogToSegments`):
absent or empty contents yield no segments. -/
def lifelogToSegments (l : LimitlessLifelog) : List NewLifelogSegment :=
  match l.contents with
  | none => []
  | some [] => []
  | some nodes => flattenNodes nodes l.id

/-- Number of nodes in one content tree. -/
def countNode : LimitlessContentNode → Nat
  | .mk _ _ _ _ _ _ _ _ children => 1 + countNodes children
where
  /-- Number of nodes in a forest. -/
  countNodes : List LimitlessContentNode → Nat
  | [] => 0
  | n :: rest => countNode n + countNodes rest

/-- Pre-order enumeration of the sibling-index paths of a forest, as the
specification words it: each node gets the path of its parent extended by
its sibling index, and is immediately followed by its descendants. -/
def preorderPaths (parents : List Nat) (i : Nat) :
    List LimitlessContentNode → List (List Nat)
  | [] => []
  | n :: rest =>
      (parents ++ [i]) ::
        (preorderPaths (parents ++ [i]) 0 n.children ++
          preorderPaths parents (i + 1) rest)
termination_by ns => sizeOf ns
decreasing_by
  all_goals cases n
  all_goals simp [LimitlessContentNode.children]
  all_goals omega

/-- Platform primitives used by the pipeline, threaded explicitly:
`Date` parsing to epoch milliseconds (returning `none` for NaN),
locale-based short timezone label extraction, the current wall clock as an
ISO string, and the WebCrypto SHA-1 hex digest (src/lib/hash.ts
`toSha1`).  The pipeline relies only on these being functions. -/
structure JsRuntime where
  dateEpochMs : String → Option Int
  tzShort : String → Option String
  nowIso : String
  sha1Hex : String → String

/-- JSON string escaping of one character, as used by
`JSON.stringify` for string values. -/
def jsonEscapeChar (c : Char) : String :=
  if c = '"' then "\\\""
  else if c = '\\' then "\\\\"
  else if c = '\n' then "\\n"
  else if c = '\r' then "\\r"
  else if c = '\t' then "\\t"
  else if c.toNat < 32 then
    "\\u00" ++ String.mk [Nat.digitChar (c.toNat / 16), Nat.digitChar (c.toNat % 16)]
  else String.mk [c]

/-- JSON serialization of a string literal. -/
def jsonStringLit (s : String) : String :=
  "\"" ++ String.join (s.toList.map jsonEscapeChar) ++ "\""

/-- Fingerprint seed (`lifelogHashSeed`): `JSON.stringify` of an object
holding exactly the five fields id, updatedAt, title, startTime, endTime,
in that key order.  An absent (`none`) field is omitted from the
serialization, as `JSON.stringify` omits `undefined` properties; the
TypeScript `null` case differs only in printing the key with `null`, and
either way the seed is a function of exactly these five fields. -/
def lifelogHashSeed (l : LimitlessLifelog) : String :=
  let fields : List (String × Option String) :=
    [("id", some l.id), ("updatedAt", l.updatedAt), ("title", l.title),
     ("startTime", l.startTime), ("endTime", l.endTime)]
  let present := fields.filterMap
    (fun kv => kv.2.map (fun v => jsonStringLit kv.1 ++ ":" ++ jsonStringLit v))
  "\x7b" ++ String.intercalate "," present ++ "\x7d"

/-- The entry record produced by `lifelogToEntry`
(src/lib/lifelog-transformers.ts); `summaryHash` is filled in by the sync
pass. -/
structure NewLifelogEntry where
  id : String
  title : String
  markdown : Option String
  startTime : Option String
  endTime : Option String
  startEpochMs : Option Int
  endEpochMs : Option Int
  isStarred : Bool
  updatedAt : String
  timezone : Option String
  summaryHash : Option String

/-- Helper `toEpochMs`: absent values give `null`, otherwise the platform
date parse (which yields `null` on NaN). -/
def toEpochMs (rt : JsRuntime) : Option String → Option Int
  | none => none
  | some s => rt.dateEpochMs s

/-- Conversion of a provider lifelog to an entry record
(`lifelogToEntry`).  `updatedAt` falls back through endTime, startTime and
finally the current time, so it is always present. -/
def lifelogToEntry (rt : JsRuntime) (l : LimitlessLifelog) : NewLifelogEntry :=
  { id := l.id
    title := nullishD l.title "Untitled entry"
    markdown := l.markdown
    startTime := l.startTime
    endTime := l.endTime
    startEpochMs := toEpochMs rt l.startTime
    endEpochMs := toEpochMs rt l.endTime
    isStarred := nullishD l.isStarred false
    updatedAt := nullishD (nullish l.updatedAt (nullish l.endTime l.startTime)) rt.nowIso
    timezone := match l.startTime with
      | some s => rt.tzShort s
      | none => none
    summaryHash := none }

/-- A stored row of `lifelog_entries`; `lastAnalyzedAt` survives entry
upserts (it is not in the conflict-update set). -/
structure EntryRow where
  id : String
  title : String
  markdown : Option String
  startTime : Option String
  endTime : Option String
  startEpochMs : Option Int
  endEpochMs : Option Int
  isStarred : Bool
  updatedAt : String
  timezone : Option String
  summaryHash : Option String
  lastAnalyzedAt : Option String

/-- Upsert of an entry row keyed on `id`
(`onConflictDoUpdate` in `syncLifelogs`): on conflict the listed columns
are overwritten and `lastAnalyzedAt` is preserved; otherwise a fresh row
is inserted. -/
def upsertEntryRow (rows : List EntryRow) (e : NewLifelogEntry) : List EntryRow :=
  if rows.any (fun r => r.id = e.id) then
    rows.map (fun r =>
      if r.id = e.id then
        { r with title := e.title, markdown := e.markdown,
                 startTime := e.startTime, endTime := e.endTime,
                 startEpochMs := e.startEpochMs, endEpochMs := e.endEpochMs,
                 isStarred := e.isStarred, updatedAt := e.updatedAt,
                 timezone := e.timezone, summaryHash := e.summaryHash }
      else r)
  else
    rows ++ [{ id := e.id, title := e.title, markdown := e.markdown,
               startTime := e.startTime, endTime := e.endTime,
               startEpochMs := e.startEpochMs, endEpochMs := e.endEpochMs,
               isStarred := e.isStarred, updatedAt := e.updatedAt,
               timezone := e.timezone, summaryHash := e.summaryHash,
               lastAnalyzedAt := none }]

/-- The rows of the `sync_state` table: pairs of the primary key `key`
and the nullable `value` column.  The `updated_at` audit column is not
modelled (no caller reads it). -/
abbrev SyncStateMap := List (String × Option String)

/-- The SyncState upsert (`upsertSyncState` in
src/src/services/state.ts): insert `(key, value)` with
`onConflictDoUpdate` targeting the primary key `key` — when a row for
the key exists its value is overwritten, otherwise a fresh row is
inserted. -/
def upsertSyncState (kv : SyncStateMap) (key value : String) :
    SyncStateMap :=
  if kv.any (fun p => p.1 = key) then
    kv.map (fun p => if p.1 = key then (key, some value) else p)
  else kv ++ [(key, some value)]

/-- Reading one SyncState key (`getSyncStateValue` in
src/src/services/state.ts): select the first row whose key matches
(`limit 1`) and return `rows[0]?.value ?? null`. -/
def getSyncStateValue (kv : SyncStateMap) (key : String) : Option String :=
  match kv.find? (fun p => p.1 = key) with
  | some row => nullish row.2 none
  | none => none

/-- Key under which the newest observed provider update timestamp is
stored (`LAST_UPDATED_KEY`). -/
def LAST_UPDATED_KEY : String := "lifelog:lastUpdatedAt"

/-- Key under which the wall-clock completion time of a sync pass is
stored (`LAST_SYNC_KEY`). -/
def LAST_SYNC_KEY : String := "lifelog:lastSyncedAt"

/-- D1 allows up to 100 bound parameters per statement; each segment
insert binds 11 params, so at most 9 rows per batch
(`SEGMENT_BATCH_SIZE`). -/
def SEGMENT_BATCH_SIZE : Nat := 9

/-- Recursion of `chunkArray` for a positive chunk size `k + 1`: take a
slice of `k + 1` elements, recurse on the rest.  The loop of the source
runs its index `i` from 0 below `values.length` in steps of the chunk
size, so its iteration count is bounded by the list length, carried here
as structural fuel (never exhausted when started at the length). -/
def chunkGo (k : Nat) : Nat → List α → List (List α)
  | _, [] => []
  | 0, _ :: _ => []
  | fuel + 1, v :: vs =>
      (v :: vs).take (k + 1) :: chunkGo k fuel ((v :: vs).drop (k + 1))

/-- The `chunkArray` helper of src/src/services/sync.ts: slices of
`chunkSize` consecutive elements.  The source loops `i += chunkSize`, so
it is only ever invoked with the positive constant `SEGMENT_BATCH_SIZE`;
a zero chunk size (on which the JavaScript loop would not terminate) is
mapped to the empty list. -/
def chunkArray (values : List α) (chunkSize : Nat) : List (List α) :=
  match chunkSize with
  | 0 => []
  | k + 1 => chunkGo k values.length values

/-- One page of the provider response as consumed by the sync loop:
`response.data.lifelogs` and `response.meta.lifelogs?.nextCursor`. -/
structure LimitlessPage where
  lifelogs : List LimitlessLifelog
  nextCursor : Option String

/-- The relational store as touched by the sync pass: entry rows, segment
rows, and the SyncState register. -/
structure SyncDb where
  entries : List EntryRow
  segments : List NewLifelogSegment
  syncState : SyncStateMap

/-- JavaScript string comparison `a > b` (lexicographic; identical to
Lean's order on the code points appearing in ISO timestamps). -/
def jsStrGt (a b : String) : Bool := decide (b < a)

/-- The running-maximum update of `lastUpdatedAt` in `syncLifelogs`:
`if (!lastUpdatedAt || (entry.updatedAt && entry.updatedAt > lastUpdatedAt))
lastUpdatedAt = entry.updatedAt ?? lastUpdatedAt`.  `entry.updatedAt` is
always a string (possibly empty). -/
def trackLastUpdated (last : Option String) (u : String) : Option String :=
  if !(jsTruthyStr last) || (u ≠ "" && jsStrGt u (nullishD last "")) then some u
  else last

/-- Per-item store effect of the sync loop body: upsert the entry (with
`summaryHash` filled from the fingerprint), and, only when the flattened
segment list is non-empty, delete the entry's stored segments and insert
the new ones in `SEGMENT_BATCH_SIZE`-sized batches. -/
def processLifelog (rt : JsRuntime) (db : SyncDb) (l : LimitlessLifelog) :
    SyncDb :=
  if (lifelogToSegments l).length ≠ 0 then
    { db with
      entries := upsertEntryRow db.entries
        { lifelogToEntry rt l with
          summaryHash := some (rt.sha1Hex (lifelogHashSeed l)) }
      segments := db.segments.filter (fun s => s.entryId != l.id) ++
        (chunkArray (lifelogToSegments l) SEGMENT_BATCH_SIZE).flatten }
  else
    { db with
      entries := upsertEntryRow db.entries
        { lifelogToEntry rt l with
          summaryHash := some (rt.sha1Hex (lifelogHashSeed l)) } }

/-- Fold of the loop body over one page's items, tracking the processed
count and the maximum observed update timestamp. -/
def processPage (rt : JsRuntime) (acc : SyncDb × Nat × Option String)
    (items : List LimitlessLifelog) : SyncDb × Nat × Option String :=
  items.foldl (fun acc l =>
    let db := processLifelog rt acc.1 l
    let entry := lifelogToEntry rt l
    (db, acc.2.1 + 1, trackLastUpdated acc.2.2 entry.updatedAt)) acc

/-- The `do ... while (cursor)` pagination loop of `syncLifelogs`, driven
by the stream of pages the provider will answer with (call number `i`
is answered by the `i`-th page).  Returns the final store, the processed
count, the tracked `lastUpdatedAt`, and the trace of cursor arguments
passed to the provider client; `none` models the (unreachable under a
terminating cursor chain) case that the loop requests more pages than the
stream holds. -/
def syncLoop (rt : JsRuntime) :
    List LimitlessPage → Option String → SyncDb → Nat → Option String →
    Option (SyncDb × Nat × Option String × List (Option String))
  | [], _, _, _, _ => none
  | page :: rest, cursor, db, processed, last =>
      let step := processPage rt (db, processed, last) page.lifelogs
      if jsTruthyStr page.nextCursor then
        (syncLoop rt rest page.nextCursor step.1 step.2.1 step.2.2).map
          (fun out => (out.1, out.2.1, out.2.2.1, cursor :: out.2.2.2))
      else
        some (step.1, step.2.1, step.2.2, [cursor])

/-- Result record of `syncLifelogs` (`SyncStats`). -/
structure SyncStats where
  processed : Nat
  lastUpdatedAt : Option String
deriving Repr, DecidableEq

/-- The sync controller `syncLifelogs` (src/src/services/sync.ts): flag
and credential gating, the pagination loop, and the two conditional
SyncState writes on completion.  The request window parameters (`start`,
`limit`) do not influence the modelled store effects: the provider's
answers are supplied as the page stream. -/
def syncLifelogs (rt : JsRuntime) (disableSync : Bool) (apiKey : Option String)
    (pages : List LimitlessPage) (db : SyncDb) :
    Option (SyncStats × SyncDb × List (Option String)) :=
  if disableSync || apiKey = some "skip" then
    some ({ processed := 0, lastUpdatedAt := none }, db, [])
  else if !(jsTruthyStr apiKey) then
    some ({ processed := 0, lastUpdatedAt := none }, db, [])
  else
    match syncLoop rt pages none db 0 none with
    | none => none
    | some (db1, processed, last, trace) =>
        let db2 :=
          if jsTruthyStr last then
            { db1 with syncState :=
                upsertSyncState db1.syncState LAST_UPDATED_KEY (nullishD last "") }
          else db1
        let db3 := { db2 with syncState :=
                       upsertSyncState db2.syncState LAST_SYNC_KEY rt.nowIso }
        some ({ processed := processed, lastUpdatedAt := last }, db3, trace)

/-- Outcome of one HTTP attempt of the provider client: a parsed page, a
non-ok HTTP status with its body text, or a thrown transport error. -/
inductive AttemptResult where
  | success (page : LimitlessPage)
  | httpError (status : Nat) (body : String)
  | transportError (msg : String)

/-- Retry ceiling of the provider client (`MAX_RETRIES`). -/
def MAX_RETRIES : Nat := 3

/-- Base backoff delay in milliseconds (`RETRY_BASE_DELAY_MS`). -/
def RETRY_BASE_DELAY_MS : Nat := 1000

/-- Retry predicate of the provider client (`shouldRetryStatus`): 5xx
statuses only. -/
def shouldRetryStatus (status : Nat) : Bool := 500 ≤ status && status < 600

/-- The error message built for a non-ok response. -/
def limitlessErrorMessage (status : Nat) (body : String) : String :=
  "Limitless API error: " ++ toString status ++ " " ++ body

/-- Observable trace of one `fetchLifelogs` call: the returned page or
propagated error, the number of HTTP attempts issued, and the backoff
delays slept between attempts. -/
structure FetchTrace where
  result : Except String LimitlessPage
  calls : Nat
  delays : List Nat

/-- The retry loop body of `fetchLifelogs` (the retrying client at
src/src/services/analysis.ts ll. 428–496).  `attempt` is the loop index,
`remaining = MAX_RETRIES - attempt` the fuel.  Note the control flow of
the source: the `throw error` issued inside the `try` block for a non-5xx
(or final-attempt) response is caught by that same `try`'s `catch`, which
rethrows only when `attempt === MAX_RETRIES - 1` and otherwise sleeps the
same backoff delay and continues the loop. -/
def fetchGo (attempts : Nat → AttemptResult) (attempt : Nat) :
    Nat → FetchTrace
  | 0 =>
      -- the `throw lastError ?? ...` after the loop; dead code when the
      -- fuel matches `MAX_RETRIES - attempt` with `MAX_RETRIES` positive
      { result := .error "Limitless API error: unknown failure",
        calls := 0, delays := [] }
  | r + 1 =>
    let delay := RETRY_BASE_DELAY_MS * 2 ^ attempt
    match attempts attempt with
    | .success page => { result := .ok page, calls := 1, delays := [] }
    | .httpError status body =>
        let msg := limitlessErrorMessage status body
        if !(shouldRetryStatus status) || attempt = MAX_RETRIES - 1 then
          -- the `throw error` lands in this try's own catch block
          if attempt = MAX_RETRIES - 1 then
            { result := .error msg, calls := 1, delays := [] }
          else
            let t := fetchGo attempts (attempt + 1) r
            { result := t.result, calls := t.calls + 1, delays := delay :: t.delays }
        else
          let t := fetchGo attempts (attempt + 1) r
          { result := t.result, calls := t.calls + 1, delays := delay :: t.delays }
    | .transportError msg =>
        if attempt = MAX_RETRIES - 1 then
          { result := .error msg, calls := 1, delays := [] }
        else
          let t := fetchGo attempts (attempt + 1) r
          { result := t.result, calls := t.calls + 1, delays := delay :: t.delays }

/-- The retrying `fetchLifelogs` client: credential check, then the
attempt loop.  The provider's behaviour is supplied as the
attempt-indexed outcome function. -/
def fetchLifelogsRetry (apiKey : Option String)
    (attempts : Nat → AttemptResult) : FetchTrace :=
  if !(jsTruthyStr apiKey) then
    { result := .error "Missing LIMITLESS_API_KEY", calls := 0, delays := [] }
  else fetchGo attempts 0 MAX_RETRIES

/-- Analysis schema version constant (`ANALYSIS_VERSION`). -/
def ANALYSIS_VERSION : String := "v1"

/-- SyncState key stamped after a successful analysis batch
(`LAST_ANALYZED_KEY`). -/
def LAST_ANALYZED_KEY : String := "lifelog:lastAnalyzedAt"

/-- A stored row of `lifelog_analyses` (the surrogate id and
`createdAt` timestamp are not modelled). -/
structure AnalysisRow where
  entryId : String
  model : String
  version : String
  payloadHash : Option String
  insightsJson : String
deriving Repr, DecidableEq

/-- SQLite three-valued `<>` on two nullable text columns, coerced to the
boolean a `WHERE` clause uses: true only when both operands are non-NULL
and different (a NULL operand gives NULL, which does not select). -/
def sqlNe (a b : Option String) : Bool :=
  match a, b with
  | some x, some y => x ≠ y
  | _, _ => false

/-- The analysis row joined to an entry by the candidate query: the row
of `lifelog_analyses` with this entry id and version `ANALYSIS_VERSION`,
if any (the `leftJoin` condition in `analyzeFreshEntries`). -/
def findAnalysisRow (rows : List AnalysisRow) (entryId : String) :
    Option AnalysisRow :=
  rows.find? (fun r => r.entryId = entryId && r.version = ANALYSIS_VERSION)

/-- The `needsAnalysis` filter of `analyzeFreshEntries`:
`isNull(lifelogAnalyses.id) OR lifelogAnalyses.payloadHash <>
lifelogEntries.summaryHash`, under SQL NULL semantics. -/
def needsAnalysisRow (row : Option AnalysisRow) (summaryHash : Option String) :
    Bool :=
  match row with
  | none => true
  | some r => sqlNe r.payloadHash summaryHash

/-- Candidate-selection predicate of the analysis orchestrator in its
default (no explicit entry-id list) mode: an entry passes the staleness
filter iff `needsAnalysisRow` holds for its joined analysis row. -/
def analysisCandidateFilter (rows : List AnalysisRow) (entryId : String)
    (summaryHash : Option String) : Bool :=
  needsAnalysisRow (findAnalysisRow rows entryId) summaryHash

/-- Upsert of an analysis row with conflict target
`(entryId, version)` (`onConflictDoUpdate` in `analyzeFreshEntries`). -/
def upsertAnalysisRow (rows : List AnalysisRow) (r : AnalysisRow) :
    List AnalysisRow :=
  if rows.any (fun x => x.entryId = r.entryId && x.version = r.version) then
    rows.map (fun x =>
      if x.entryId = r.entryId && x.version = r.version then r else x)
  else rows ++ [r]

/-- Substring test, JavaScript `String.includes`. -/
def strIncludes (hay needle : String) : Bool :=
  (List.range (hay.toList.length + 1)).any
    (fun i => needle.toList.isPrefixOf (hay.toList.drop i))

/-- The rate-limit detection of the orchestrator's catch handler:
`errorMessage.includes('1031')`. -/
def isRateLimitMsg (msg : String) : Bool := strIncludes msg "1031"

/-- Outcome of the whole per-candidate inference pipeline (primary call,
repair call, secondary fallback, `ensureAnalysisJson`): either an
accepted payload with the model that produced it, or a thrown error with
its message. -/
inductive InferOutcome where
  | ok (modelUsed : String) (insights : String)
  | err (msg : String)

/-- Truth of an inference outcome being a success. -/
def InferOutcome.isOk : InferOutcome → Bool
  | .ok _ _ => true
  | .err _ => false

/-- One selected candidate row as read by the orchestrator: entry id and
current fingerprint. -/
structure Candidate where
  id : String
  summaryHash : Option String

/-- Analysis-side store state: analysis rows, the append-only event log
as (entryId, status) pairs, and the SyncState register. -/
structure AnaDb where
  analyses : List AnalysisRow
  events : List (String × String)
  syncState : SyncStateMap

/-- The analysis row persisted for a candidate: the model that produced
the accepted payload, the current schema version, the payload hash pinned
to the candidate's fingerprint, and the serialized insights. -/
def mkAnalysisRow (c : Candidate) (modelUsed insights : String) :
    AnalysisRow :=
  { entryId := c.id, model := modelUsed, version := ANALYSIS_VERSION,
    payloadHash := c.summaryHash, insightsJson := insights }

/-- The candidate loop of `analyzeFreshEntries`.  Per candidate: an empty
id is skipped; a successful inference upserts the analysis row (payload
hash pinned to the candidate's fingerprint), appends a success event and
records the id; a thrown error whose message contains the rate-limit code
records the id as skipped and breaks out of the loop; any other error
appends an error event and continues.  Returns (analyzedIds, skippedIds,
final store). -/
def analyzeLoop (infer : String → InferOutcome) :
    List Candidate → AnaDb → List String × List String × AnaDb
  | [], db => ([], [], db)
  | c :: rest, db =>
      if c.id = "" then analyzeLoop infer rest db
      else
        match infer c.id with
        | .ok modelUsed insights =>
            let db1 : AnaDb :=
              { db with
                analyses := upsertAnalysisRow db.analyses
                  (mkAnalysisRow c modelUsed insights),
                events := db.events ++ [(c.id, "success")] }
            let out := analyzeLoop infer rest db1
            (c.id :: out.1, out.2.1, out.2.2)
        | .err msg =>
            if isRateLimitMsg msg then ([], [c.id], db)
            else
              let db1 : AnaDb :=
                { db with events := db.events ++ [(c.id, "error")] }
              analyzeLoop infer rest db1

/-- The orchestrator `analyzeFreshEntries` after candidate selection: the
candidate loop followed by the `lastAnalyzedAt` SyncState stamp when
anything was analyzed.  Returns the analyzed ids and the final store. -/
def analyzeFreshEntriesRun (rt : JsRuntime) (infer : String → InferOutcome)
    (cands : List Candidate) (db : AnaDb) : List String × AnaDb :=
  let out := analyzeLoop infer cands db
  let db1 :=
    if out.1.length ≠ 0 then
      { out.2.2 with syncState :=
          upsertSyncState out.2.2.syncState LAST_ANALYZED_KEY rt.nowIso }
    else out.2.2
  (out.1, db1)

/-- JSON whitespace (space, tab, line feed, carriage return). -/
def jsonWsChar (c : Char) : Bool :=
  c = ' ' || c = '\t' || c = '\n' || c = '\r'

/-- Drop leading JSON whitespace. -/
def wsDrop (cs : List Char) : List Char := cs.dropWhile jsonWsChar

/-- A parsed JSON value.  Numeric literals are kept as their lexemes: no
claim compares numeric values, so the float conversion `JSON.parse`
performs is not modelled. -/
inductive JsonValue where
  | null
  | bool (b : Bool)
  | num (lexeme : String)
  | str (s : String)
  | arr (items : List JsonValue)
  | obj (fields : List (String × JsonValue))

/-- Whether a JSON value is an object. -/
def JsonValue.isObj : JsonValue → Bool
  | .obj _ => true
  | _ => false

/-- Hexadecimal digit test. -/
def isHexDigitB (c : Char) : Bool :=
  c.isDigit || ('a' ≤ c && c ≤ 'f') || ('A' ≤ c && c ≤ 'F')

/-- Hexadecimal digit value. -/
def hexVal (c : Char) : Nat :=
  if c.isDigit then c.toNat - 48
  else if 'a' ≤ c && c ≤ 'f' then c.toNat - 87
  else if 'A' ≤ c && c ≤ 'F' then c.toNat - 55
  else 0

/-- Body of a JSON string literal, after the opening quote: plain
characters and the standard escapes, up to the closing quote.  Returns
the decoded string and the remaining input. -/
def parseJsonStringBody : Nat → List Char → Option (String × List Char)
  | 0, _ => none
  | f + 1, cs =>
    match cs with
    | [] => none
    | c :: rest =>
      if c = '"' then some ("", rest)
      else if c = '\\' then
        match rest with
        | [] => none
        | e :: rest2 =>
          let dec : Option (String × List Char) :=
            if e = '"' then some ("\"", rest2)
            else if e = '\\' then some ("\\", rest2)
            else if e = '/' then some ("/", rest2)
            else if e = 'b' then some ("\x08", rest2)
            else if e = 'f' then some ("\x0c", rest2)
            else if e = 'n' then some ("\n", rest2)
            else if e = 'r' then some ("\r", rest2)
            else if e = 't' then some ("\t", rest2)
            else if e = 'u' then
              match rest2 with
              | a :: b :: c2 :: d :: rest3 =>
                  if isHexDigitB a && isHexDigitB b && isHexDigitB c2 &&
                      isHexDigitB d then
                    some (String.mk [Char.ofNat
                      (hexVal a * 4096 + hexVal b * 256 + hexVal c2 * 16 +
                        hexVal d)], rest3)
                  else none
              | _ => none
            else none
          match dec with
          | none => none
          | some (pre, rest3) =>
              (parseJsonStringBody f rest3).map (fun r => (pre ++ r.1, r.2))
      else if c.toNat < 32 then none
      else (parseJsonStringBody f rest).map
        (fun r => (String.mk [c] ++ r.1, r.2))

/-- Fraction and exponent tail of a JSON number literal. -/
def jsonFracExp (lex : String) (cs : List Char) : Option (String × List Char) :=
  let fr : Option (String × List Char) :=
    match cs with
    | '.' :: r =>
        let ds := r.takeWhile Char.isDigit
        if ds.isEmpty then none
        else some (lex ++ "." ++ String.mk ds, r.dropWhile Char.isDigit)
    | _ => some (lex, cs)
  match fr with
  | none => none
  | some (lex1, cs1) =>
      match cs1 with
      | e :: r =>
          if e = 'e' || e = 'E' then
            let sg := match r with
              | c :: rr => if c = '+' || c = '-' then (String.mk [c], rr)
                           else ("", r)
              | [] => ("", r)
            let ds := sg.2.takeWhile Char.isDigit
            if ds.isEmpty then none
            else some (lex1 ++ String.mk [e] ++ sg.1 ++ String.mk ds,
              sg.2.dropWhile Char.isDigit)
          else some (lex1, cs1)
      | [] => some (lex1, cs1)

/-- A JSON number literal: optional minus, integer part without leading
zeros, optional fraction and exponent.  Returns the lexeme. -/
def parseJsonNumber (cs : List Char) : Option (String × List Char) :=
  let sg : String × List Char :=
    match cs with
    | c :: r => if c = '-' then ("-", r) else ("", cs)
    | [] => ("", cs)
  match sg.2 with
  | [] => none
  | c :: r =>
      if c = '0' then jsonFracExp (sg.1 ++ "0") r
      else if c.isDigit then
        jsonFracExp (sg.1 ++ String.mk (c :: r.takeWhile Char.isDigit))
          (r.dropWhile Char.isDigit)
      else none

mutual

/-- Recursive-descent JSON value parser (the grammar `JSON.parse`
accepts), fuelled; returns the value and the remaining input. -/
def parseJsonValue : Nat → List Char → Option (JsonValue × List Char)
  | 0, _ => none
  | f + 1, cs0 =>
    let cs := wsDrop cs0
    match cs with
    | [] => none
    | c :: rest =>
      if c = lbrace then
        match wsDrop rest with
        | d :: rest2 =>
            if d = rbrace then some (.obj [], rest2)
            else parseJsonMembers f (d :: rest2) []
        | [] => none
      else if c = '[' then
        match wsDrop rest with
        | d :: rest2 =>
            if d = ']' then some (.arr [], rest2)
            else parseJsonItems f (d :: rest2) []
        | [] => none
      else if c = '"' then
        (parseJsonStringBody (rest.length + 1) rest).map
          (fun r => (.str r.1, r.2))
      else if c = 'n' then
        match rest with
        | 'u' :: 'l' :: 'l' :: r => some (.null, r)
        | _ => none
      else if c = 't' then
        match rest with
        | 'r' :: 'u' :: 'e' :: r => some (.bool true, r)
        | _ => none
      else if c = 'f' then
        match rest with
        | 'a' :: 'l' :: 's' :: 'e' :: r => some (.bool false, r)
        | _ => none
      else (parseJsonNumber (c :: rest)).map (fun r => (.num r.1, r.2))

/-- Member list of a JSON object, positioned at a key. -/
def parseJsonMembers : Nat → List Char → List (String × JsonValue) →
    Option (JsonValue × List Char)
  | 0, _, _ => none
  | f + 1, cs, acc =>
    match wsDrop cs with
    | [] => none
    | c :: rest =>
        if c = '"' then
          match parseJsonStringBody (rest.length + 1) rest with
          | none => none
          | some (key, rest1) =>
              match wsDrop rest1 with
              | ':' :: rest3 =>
                  match parseJsonValue f rest3 with
                  | none => none
                  | some (v, rest4) =>
                      match wsDrop rest4 with
                      | ',' :: rest6 =>
                          parseJsonMembers f rest6 (acc ++ [(key, v)])
                      | d :: rest6 =>
                          if d = rbrace then
                            some (.obj (acc ++ [(key, v)]), rest6)
                          else none
                      | [] => none
              | _ => none
        else none

/-- Item list of a JSON array, positioned at a value. -/
def parseJsonItems : Nat → List Char → List JsonValue →
    Option (JsonValue × List Char)
  | 0, _, _ => none
  | f + 1, cs, acc =>
      match parseJsonValue f cs with
      | none => none
      | some (v, rest) =>
          match wsDrop rest with
          | ',' :: rest2 => parseJsonItems f rest2 (acc ++ [v])
          | ']' :: rest2 => some (.arr (acc ++ [v]), rest2)
          | _ => none

end

/-- Model of `JSON.parse`: parse one value surrounded only by
whitespace; any other trailing input is a syntax error.  The fuel is
sufficient for any input of the given length. -/
def jsonParse (s : String) : Option JsonValue :=
  match parseJsonValue (2 * s.length + 4) s.toList with
  | some (v, rest) => if (wsDrop rest).isEmpty then some v else none
  | none => none

/-- JavaScript `String.trim`: strip leading and trailing whitespace. -/
def jsTrim (s : String) : String :=
  let l := s.toList.dropWhile jsonWsChar
  String.mk (l.reverse.dropWhile jsonWsChar).reverse

/-- JavaScript `indexOf` for a single character (absence modelled as
`none` rather than -1). -/
def strIndexOfChar (s : String) (c : Char) : Option Nat :=
  s.toList.findIdx? (fun x => x = c)

/-- JavaScript `lastIndexOf` for a single character. -/
def strLastIndexOfChar (s : String) (c : Char) : Option Nat :=
  match s.toList.reverse.findIdx? (fun x => x = c) with
  | some i => some (s.toList.length - 1 - i)
  | none => none

/-- JavaScript `slice(start, stop)` for ascending in-range indices. -/
def strSlice (s : String) (start stop : Nat) : String :=
  String.mk ((s.toList.drop start).take (stop - start))

/-- The brace-window extraction of `tryParseAnalysisJson`'s fallback: the
substring of the trimmed input from the first left brace to the last
right brace, provided both exist in that order (`start === -1 ||
end <= start` returns null). -/
def braceSlice (t : String) : Option String :=
  match strIndexOfChar t lbrace, strLastIndexOfChar t rbrace with
  | some s, some e => if e ≤ s then none else some (strSlice t s (e + 1))
  | _, _ => none

/-- The permissive parser `tryParseAnalysisJson`
(src/src/services/analysis.ts ll. 144–160): strict parse of the whole
input; on failure, parse of the first-brace-to-last-brace window of the
trimmed input; `none` models the null return.  (A top-level JSON `null`
parses to the JSON null value; in JavaScript that return value is the
same `null` as the failure return.) -/
def tryParseAnalysisJson (raw : String) : Option JsonValue :=
  match jsonParse raw with
  | some v => some v
  | none =>
      match strIndexOfChar (jsTrim raw) lbrace,
            strLastIndexOfChar (jsTrim raw) rbrace with
      | some s, some e =>
          if e ≤ s then none
          else
            match jsonParse (strSlice (jsTrim raw) s (e + 1)) with
            | some v => some v
            | none => none
      | _, _ => none

/-- Modelled from the spec: the first balanced top-level JSON object
substring of a prose response — the shortest substring that starts at the
first left brace and parses as a JSON value (spec section 4.6 step 2,
"extract the first balanced brace-delimited substring from surrounding
prose").  Used to compare the claimed behaviour with the implemented
fallback. -/
def firstBalancedObject (raw : String) : Option JsonValue :=
  let cs := raw.toList
  match cs.findIdx? (fun c => c = lbrace) with
  | none => none
  | some i =>
      let tail := cs.drop i
      (List.range (tail.length + 1)).findSome?
        (fun n => jsonParse (String.mk (tail.take n)))

/-- Concrete runtime used by closed evaluations: trivial date parser and
timezone label, a fixed clock, and the identity in place of the SHA-1
digest (only functional congruence of the digest matters). -/
def rtTest : JsRuntime :=
  { dateEpochMs := fun _ => none
    tzShort := fun _ => none
    nowIso := "2024-01-01T00:00:00.000Z"
    sha1Hex := fun s => s }

/-- A previously stored segment row for entry `e1`, used by the C4
evaluations. -/
def oldSegmentE1 : NewLifelogSegment :=
  { entryId := "e1", nodeId := "e1:0", path := "0",
    nodeType := "paragraph", content := some "old text",
    startTime := none, endTime := none, startOffsetMs := none,
    endOffsetMs := none, speakerName := none, speakerIdentifier := none }

/-- A provider item for entry `e1` whose content field is absent, so its
flattened segment list is empty. -/
def emptyContentsItemE1 : LimitlessLifelog :=
  { id := "e1", title := some "t", markdown := some "body",
    contents := none, startTime := none, endTime := none,
    isStarred := none, updatedAt := some "2024-01-02" }

/-- A provider item for entry `e1` with two content nodes. -/
def twoNodeItemE1 : LimitlessLifelog :=
  { id := "e1", title := some "t", markdown := none,
    contents := some
      [.mk (some "heading1") (some "Morning") none none none none
        none none [],
       .mk (some "paragraph") (some "walk") none none none none
        none none []],
    startTime := none, endTime := none, isStarred := none,
    updatedAt := some "2024-01-02" }

/-- The analysis row the loop would persist for a candidate, given its
inference outcome (none when the outcome is an error). -/
def rowOfOutcome (c : Candidate) : InferOutcome → Option AnalysisRow
  | .ok m ins => some (mkAnalysisRow c m ins)
  | .err _ => none

/-- Concrete candidate list for the C2 witness: the specification's
5-candidate example. -/
def c2Candidates : List Candidate :=
  [{ id := "c1", summaryHash := some "h1" },
   { id := "c2", summaryHash := some "h2" },
   { id := "c3", summaryHash := some "h3" },
   { id := "c4", summaryHash := some "h4" },
   { id := "c5", summaryHash := some "h5" }]

/-- Concrete inference oracle for the C2 witness: candidate 3 hits the
rate limit, all others succeed. -/
def c2Infer : String → InferOutcome := fun id =>
  if id = "c3" then .err "AiError: 1031 rate limited"
  else .ok "@cf/openai/gpt-oss-120b" "insights"

theorem chunkGo_flatten (k : Nat) :
    ∀ (fuel : Nat) (l : List α), l.length ≤ fuel →
      (chunkGo k fuel l).flatten = l := by
  intro fuel
  induction fuel with
  | zero =>
      intro l hl
      cases l with
      | nil => rfl
      | cons v vs => simp at hl
  | succ f ih =>
      intro l hl
      cases l with
      | nil => rfl
      | cons v vs =>
          simp only [List.length_cons] at hl
          rw [chunkGo]
          simp only [List.flatten_cons]
          rw [ih ((v :: vs).drop (k + 1))
            (by simp only [List.length_drop, List.length_cons]; omega)]
          exact List.take_append_drop _ _

theorem chunkGo_len_le (k : Nat) :
    ∀ (fuel : Nat) (l : List α), ∀ b ∈ chunkGo k fuel l, b.length ≤ k + 1 := by
  intro fuel
  induction fuel with
  | zero =>
      intro l b hb
      cases l with
      | nil => simp [chunkGo] at hb
      | cons v vs => simp [chunkGo] at hb
  | succ f ih =>
      intro l b hb
      cases l with
      | nil => simp [chunkGo] at hb
      | cons v vs =>
          rw [chunkGo] at hb
          rcases List.mem_cons.mp hb with h | h
          · subst h
            exact List.length_take_le _ _
          · exact ih _ b h

theorem chunkGo_length (k : Nat) :
    ∀ (fuel : Nat) (l : List α), l.length ≤ fuel →
      (chunkGo k fuel l).length = (l.length + k) / (k + 1) := by
  intro fuel
  induction fuel with
  | zero =>
      intro l hl
      cases l with
      | nil =>
          simp only [chunkGo, List.length_nil, Nat.zero_add]
          exact (Nat.div_eq_of_lt (by omega)).symm
      | cons v vs => simp at hl
  | succ f ih =>
      intro l hl
      cases l with
      | nil =>
          simp only [chunkGo, List.length_nil, Nat.zero_add]
          exact (Nat.div_eq_of_lt (by omega)).symm
      | cons v vs =>
          simp only [List.length_cons] at hl
          rw [chunkGo]
          simp only [List.length_cons,
            ih ((v :: vs).drop (k + 1))
              (by simp only [List.length_drop, List.length_cons]; omega),
            List.length_drop]
          rcases le_or_lt (vs.length + 1) (k + 1) with h | h
          · have h1 : vs.length + 1 - (k + 1) = 0 := by omega
            have h2 : (vs.length + 1 + k) / (k + 1) = 1 := by
              apply Nat.div_eq_of_lt_le <;> omega
            rw [h1, h2]
            simp only [Nat.zero_add]
            rw [Nat.div_eq_of_lt (Nat.lt_succ_self k)]
          · have h3 : vs.length + 1 + k =
                (vs.length + 1 - (k + 1) + k) + (k + 1) := by omega
            rw [h3, Nat.add_div_right _ (Nat.succ_pos k)]

theorem chunkGo_full (k : Nat) :
    ∀ (fuel : Nat) (l : List α), l.length ≤ fuel →
      ∀ i, i + 1 < (chunkGo k fuel l).length →
        ((chunkGo k fuel l).getD i []).length = k + 1 := by
  intro fuel
  induction fuel with
  | zero =>
      intro l hl i hi
      cases l with
      | nil => simp [chunkGo] at hi
      | cons v vs => simp at hl
  | succ f ih =>
      intro l hl i hi
      cases l with
      | nil => simp [chunkGo] at hi
      | cons v vs =>
          simp only [List.length_cons] at hl
          rw [chunkGo] at hi ⊢
          cases i with
          | zero =>
              simp only [List.getD_cons_zero]
              simp only [List.length_cons] at hi
              have hne : chunkGo k f ((v :: vs).drop (k + 1)) ≠ [] := by
                intro hnil
                rw [hnil] at hi
                simp at hi
              have hdrop : (v :: vs).drop (k + 1) ≠ [] := by
                intro hnil
                apply hne
                rw [hnil]
                cases f <;> rfl
              have hlen : k + 1 ≤ (v :: vs).length := by
                by_contra hcon
                exact hdrop (List.drop_eq_nil_of_le (by omega))
              simpa using List.length_take_of_le hlen
          | succ j =>
              simp only [List.getD_cons_succ]
              refine ih _ ?_ j ?_
              · simp only [List.length_drop, List.length_cons]
                omega
              · simp only [List.length_cons] at hi
                omega

/-- Claim C9: for every segment list, the insert batches are
`chunkArray` slices at `SEGMENT_BATCH_SIZE = 9`: there are
ceil(n / 9) batches, each holds at most 9 segments (hence at most 99
bound parameters at 11 per segment), every batch except possibly the
last holds exactly 9, their concatenation is the original list, and a
25-segment list yields exactly batches of sizes 9, 9, 7. -/
theorem segment_batching (segments : List NewLifelogSegment) :
    (chunkArray segments SEGMENT_BATCH_SIZE).length =
      (segments.length + 8) / 9 ∧
    (∀ b ∈ chunkArray segments SEGMENT_BATCH_SIZE,
      b.length ≤ 9 ∧ b.length * 11 ≤ 99) ∧
    (∀ i, i + 1 < (chunkArray segments SEGMENT_BATCH_SIZE).length →
      ((chunkArray segments SEGMENT_BATCH_SIZE).getD i []).length = 9) ∧
    (chunkArray segments SEGMENT_BATCH_SIZE).flatten = segments ∧
    (chunkArray (List.range 25) SEGMENT_BATCH_SIZE).map List.length =
      [9, 9, 7] := by
  refine ⟨?_, ?_, ?_, ?_, ?_⟩
  · exact chunkGo_length 8 segments.length segments le_rfl
  · intro b hb
    have h := chunkGo_len_le 8 segments.length segments b hb
    constructor <;> omega
  · exact chunkGo_full 8 segments.length segments le_rfl
  · exact chunkGo_flatten 8 segments.length segments le_rfl
  · decide

/-- Witness for C9: the claim applied to the specification's 25-element
example (via the last conjunct) and to a concrete list. -/
theorem segment_batching_witness :
    (chunkArray ([] : List NewLifelogSegment) SEGMENT_BATCH_SIZE).flatten
      = [] ∧
    (chunkArray (List.range 25) SEGMENT_BATCH_SIZE).map List.length
      = [9, 9, 7] :=
  ⟨(segment_batching []).2.2.2.1, (segment_batching []).2.2.2.2⟩

/-- Claim C1: the candidate selector's staleness filter selects an entry
iff no Analysis row exists for it (for the current version), or the
stored row's payload hash differs from the entry's current fingerprint;
in particular an entry whose row's payload hash equals its fingerprint is
excluded, and becomes selected again once the fingerprint changes.
Hashes are assumed present (non-NULL), as the sync pass always writes a
fingerprint and the orchestrator pins the payload hash from it. -/
theorem analysis_staleness_gating (rows : List AnalysisRow)
    (entryId h1 h2 : String) (hne : h1 ≠ h2) :
    (findAnalysisRow rows entryId = none →
      analysisCandidateFilter rows entryId (some h1) = true) ∧
    (∀ r p, findAnalysisRow rows entryId = some r → r.payloadHash = some p →
      (analysisCandidateFilter rows entryId (some h1) = true ↔ p ≠ h1)) ∧
    (∀ r, findAnalysisRow rows entryId = some r → r.payloadHash = some h1 →
      analysisCandidateFilter rows entryId (some h1) = false ∧
      analysisCandidateFilter rows entryId (some h2) = true) := by
  unfold analysisCandidateFilter needsAnalysisRow sqlNe
  refine ⟨?_, ?_, ?_⟩
  · intro h
    rw [h]
  · intro r p hr hp
    rw [hr]
    simp [hp]
  · intro r hr hp
    rw [hr]
    simp [hp]
    exact fun hcon => hne hcon

/-- Witness for C1: an entry with fingerprint `hashA` and a stored row
with payload hash `hashA` is excluded; with fingerprint `hashB` it is
selected again. -/
theorem analysis_staleness_gating_witness :
    analysisCandidateFilter
      [{ entryId := "e1", model := "m", version := "v1",
         payloadHash := some "hashA", insightsJson := "ij" }]
      "e1" (some "hashA") = false ∧
    analysisCandidateFilter
      [{ entryId := "e1", model := "m", version := "v1",
         payloadHash := some "hashA", insightsJson := "ij" }]
      "e1" (some "hashB") = true :=
  (analysis_staleness_gating
      [{ entryId := "e1", model := "m", version := "v1",
         payloadHash := some "hashA", insightsJson := "ij" }]
      "e1" "hashA" "hashB" (by decide)).2.2
    { entryId := "e1", model := "m", version := "v1",
      payloadHash := some "hashA", insightsJson := "ij" }
    rfl rfl

/-- Claim C10: the fingerprint seed — and hence the digest — is a
function of exactly the five fields id, provider updatedAt, title,
startTime and endTime: two lifelogs agreeing on those fields produce the
same seed and the same digest under any digest function, however their
markdown body or content trees differ, and consequently the staleness
filter treats them identically. -/
theorem fingerprint_field_scope (sha : String → String)
    (rows : List AnalysisRow) (l1 l2 : LimitlessLifelog)
    (hid : l1.id = l2.id) (hupd : l1.updatedAt = l2.updatedAt)
    (htitle : l1.title = l2.title) (hstart : l1.startTime = l2.startTime)
    (hend : l1.endTime = l2.endTime) :
    lifelogHashSeed l1 = lifelogHashSeed l2 ∧
    sha (lifelogHashSeed l1) = sha (lifelogHashSeed l2) ∧
    analysisCandidateFilter rows l1.id (some (sha (lifelogHashSeed l1))) =
      analysisCandidateFilter rows l2.id (some (sha (lifelogHashSeed l2))) := by
  have hseed : lifelogHashSeed l1 = lifelogHashSeed l2 := by
    unfold lifelogHashSeed
    rw [hid, hupd, htitle, hstart, hend]
  exact ⟨hseed, by rw [hseed], by rw [hid, hseed]⟩

/-- Witness for C10: two lifelogs sharing the five hashed fields but with
different markdown bodies and content trees have equal fingerprint
seeds. -/
theorem fingerprint_field_scope_witness :
    lifelogHashSeed
      { id := "e1", title := some "Walk", markdown := some "body A",
        contents := none, startTime := some "2024-01-01T09:00:00Z",
        endTime := some "2024-01-01T10:00:00Z", isStarred := none,
        updatedAt := some "2024-01-02T00:00:00Z" } =
    lifelogHashSeed
      { id := "e1", title := some "Walk", markdown := some "body B",
        contents := some [.mk (some "paragraph") (some "hello") none none
          none none none none []],
        startTime := some "2024-01-01T09:00:00Z",
        endTime := some "2024-01-01T10:00:00Z", isStarred := none,
        updatedAt := some "2024-01-02T00:00:00Z" } :=
  (fingerprint_field_scope (fun s => s) []
    { id := "e1", title := some "Walk", markdown := some "body A",
      contents := none, startTime := some "2024-01-01T09:00:00Z",
      endTime := some "2024-01-01T10:00:00Z", isStarred := none,
      updatedAt := some "2024-01-02T00:00:00Z" }
    { id := "e1", title := some "Walk", markdown := some "body B",
      contents := some [.mk (some "paragraph") (some "hello") none none
        none none none none []],
      startTime := some "2024-01-01T09:00:00Z",
      endTime := some "2024-01-01T10:00:00Z", isStarred := none,
      updatedAt := some "2024-01-02T00:00:00Z" }
    rfl rfl rfl rfl rfl).1

/-- Claim C5 (evaluation at the failing input): the retrying provider
client called against an endpoint that always answers 404 issues 3
attempts with backoff delays 1000ms and 2000ms before the error
propagates — although a 4xx is claimed (and, per the dead
`shouldRetryStatus` guard, intended) to fail on the attempt that received
it: the `throw` inside the `try` block is caught by that try's own
`catch`, which rethrows only on the last attempt.  The 5xx and
transport-error halves of the claim do hold: exactly 3 attempts, doubling
delays, last error propagated. -/
theorem fetch_4xx_retried :
    (fetchLifelogsRetry (some "key")
      (fun _ => AttemptResult.httpError 404 "not found")).calls = 3 ∧
    (fetchLifelogsRetry (some "key")
      (fun _ => AttemptResult.httpError 404 "not found")).delays =
        [1000, 2000] ∧
    (fetchLifelogsRetry (some "key")
      (fun _ => AttemptResult.httpError 404 "not found")).result =
        .error (limitlessErrorMessage 404 "not found") ∧
    (fetchLifelogsRetry (some "key")
      (fun _ => AttemptResult.httpError 503 "busy")).calls = 3 ∧
    (fetchLifelogsRetry (some "key")
      (fun _ => AttemptResult.httpError 503 "busy")).delays = [1000, 2000] ∧
    (fetchLifelogsRetry (some "key")
      (fun _ => AttemptResult.httpError 503 "busy")).result =
        .error (limitlessErrorMessage 503 "busy") ∧
    (fetchLifelogsRetry (some "key")
      (fun _ => AttemptResult.transportError "connection reset")).calls = 3 ∧
    (fetchLifelogsRetry (some "key")
      (fun _ => AttemptResult.transportError "connection reset")).result =
        .error "connection reset" :=
  ⟨rfl, rfl, rfl, rfl, rfl, rfl, rfl, rfl⟩

/-- Claim C7 (counterexample): on the prose response
`x \x7b"a":1\x7d y \x7b"b":2\x7d z` a balanced top-level JSON object is
present (the first one, `\x7b"a":1\x7d`), yet the permissive parser
returns null: its fallback slices from the first left brace to the last
right brace, producing the unparsable `\x7b"a":1\x7d y \x7b"b":2\x7d`. -/
theorem tryparse_first_balanced_cex :
    tryParseAnalysisJson "x \x7b\"a\":1\x7d y \x7b\"b\":2\x7d z" = none ∧
    (firstBalancedObject "x \x7b\"a\":1\x7d y \x7b\"b\":2\x7d z").isSome
      = true ∧
    (braceSlice (jsTrim "x \x7b\"a\":1\x7d y \x7b\"b\":2\x7d z")) =
      some "\x7b\"a\":1\x7d y \x7b\"b\":2\x7d" := by
  refine ⟨rfl, ?_, ?_⟩
  · decide
  · decide

/-- Claim C7 (amended): the permissive parser returns the strict parse of
the whole input when that input is valid JSON; otherwise it parses the
single substring of the trimmed input running from the first left brace
to the last right brace, returning null when that window is absent or not
valid JSON — even if a balanced top-level JSON object occurs elsewhere in
the prose.  The second conjunct shows the fallback extracting an object
from simple surrounding prose. -/
theorem tryparse_brace_window (raw : String) :
    tryParseAnalysisJson raw =
      (match jsonParse raw with
       | some v => some v
       | none => (braceSlice (jsTrim raw)).bind jsonParse) ∧
    tryParseAnalysisJson "prose \x7b\"a\":1\x7d" =
      jsonParse "\x7b\"a\":1\x7d" := by
  constructor
  · unfold tryParseAnalysisJson braceSlice
    cases jsonParse raw with
    | some v => rfl
    | none =>
        cases hs : strIndexOfChar (jsTrim raw) lbrace with
        | none => rfl
        | some s =>
            cases he : strLastIndexOfChar (jsTrim raw) rbrace with
            | none => rfl
            | some e =>
                by_cases hle : e ≤ s
                · simp [hle]
                · simp only [if_neg hle, Option.bind]
                  cases jsonParse (strSlice (jsTrim raw) s (e + 1)) <;> rfl
  · rfl

theorem flattenFrom_entryId (lifelogId : String) :
    ∀ (parents : List Nat) (i : Nat) (ns : List LimitlessContentNode),
      ∀ s ∈ flattenFrom lifelogId parents i ns, s.entryId = lifelogId := by
  intro parents i ns
  induction parents, i, ns using flattenFrom.induct lifelogId with
  | case1 parents i => simp [flattenFrom]
  | case2 parents i n rest ih1 ih2 =>
      intro s hs
      rw [flattenFrom] at hs
      rcases List.mem_cons.mp hs with h | h
      · subst h
        rfl
      · rcases List.mem_append.mp h with h2 | h2
        · exact ih1 s h2
        · exact ih2 s h2

theorem lifelogToSegments_entryId (l : LimitlessLifelog) :
    ∀ s ∈ lifelogToSegments l, s.entryId = l.id := by
  intro s hs
  unfold lifelogToSegments at hs
  cases hc : l.contents with
  | none => rw [hc] at hs; simp at hs
  | some nodes =>
      rw [hc] at hs
      cases nodes with
      | nil => simp at hs
      | cons n rest => exact flattenFrom_entryId l.id [] 0 (n :: rest) s hs

theorem flattenFrom_ids (lifelogId : String) :
    ∀ (parents : List Nat) (i : Nat) (ns : List LimitlessContentNode),
      (flattenFrom lifelogId parents i ns).map (fun s => s.nodeId) =
        (preorderPaths parents i ns).map
          (fun p => lifelogId ++ ":" ++ dotJoin p) := by
  intro parents i ns
  induction parents, i, ns using flattenFrom.induct lifelogId with
  | case1 parents i => simp [flattenFrom, preorderPaths]
  | case2 parents i n rest ih1 ih2 =>
      rw [flattenFrom, preorderPaths]
      simp only [List.map_cons, List.map_append, ih1, ih2, segmentOfNode]

theorem preorderPaths_length :
    ∀ (parents : List Nat) (i : Nat) (ns : List LimitlessContentNode),
      (preorderPaths parents i ns).length = countNode.countNodes ns := by
  intro parents i ns
  induction parents, i, ns using preorderPaths.induct with
  | case1 parents i => simp [preorderPaths, countNode.countNodes]
  | case2 parents i n rest ih1 ih2 =>
      cases n with
      | mk t c s e so eo sn si ch =>
          rw [preorderPaths, countNode.countNodes, countNode]
          simp only [LimitlessContentNode.children] at ih1 ⊢
          simp only [List.length_cons, List.length_append, ih1, ih2]
          omega

/-- Claim C3: flattening emits exactly one segment per node (nodes with
empty text included), in pre-order with each parent immediately followed
by its descendants, each segment's node id being the entry id, a colon,
and the dotted sibling-index path; re-flattening is deterministic since
flattening is a pure function of the entry id and tree, and the
heading-with-one-child example for entry `e1` yields ids `e1:0` then
`e1:0.0` in that order. -/
theorem flatten_preorder_complete (lifelogId : String)
    (nodes : List LimitlessContentNode) :
    (flattenNodes nodes lifelogId).map (fun s => s.nodeId) =
      (preorderPaths [] 0 nodes).map
        (fun p => lifelogId ++ ":" ++ dotJoin p) ∧
    (flattenNodes nodes lifelogId).length = countNode.countNodes nodes ∧
    (flattenNodes
        [.mk (some "heading1") (some "Morning") none none none none
          none none
          [.mk (some "paragraph") (some "") none none none none
            none none []]]
        "e1").map (fun s => s.nodeId) = ["e1:0", "e1:0.0"] := by
  refine ⟨flattenFrom_ids lifelogId [] 0 nodes, ?_, ?_⟩
  · have h := congrArg List.length (flattenFrom_ids lifelogId [] 0 nodes)
    simp only [List.length_map] at h
    rw [flattenNodes, h, preorderPaths_length]
  · simp only [flattenNodes, flattenFrom, segmentOfNode,
      LimitlessContentNode.children, dotJoin, List.map_cons, List.map_nil,
      List.map_append, List.append_nil, List.nil_append]
    decide

/-- Claim C4 (amended): when a fetched item's flattened segment list is
non-empty, processing it replaces the store's segment set for that entry
exactly (previous segments for the entry deleted, the new list inserted,
other entries untouched); when the flattened list is empty the delete and
insert are both skipped and the previously stored segments survive
unchanged. -/
theorem segment_replace_semantics (rt : JsRuntime) (db : SyncDb)
    (l : LimitlessLifelog) :
    (lifelogToSegments l ≠ [] →
      (processLifelog rt db l).segments =
        db.segments.filter (fun s => s.entryId != l.id) ++
          lifelogToSegments l ∧
      (processLifelog rt db l).segments.filter
          (fun s => s.entryId == l.id) = lifelogToSegments l) ∧
    (lifelogToSegments l = [] →
      (processLifelog rt db l).segments = db.segments) := by
  constructor
  · intro hne
    have hlen : (lifelogToSegments l).length ≠ 0 := by
      intro h
      exact hne (List.length_eq_zero.mp h)
    have hflat : (chunkArray (lifelogToSegments l) SEGMENT_BATCH_SIZE).flatten
        = lifelogToSegments l :=
      chunkGo_flatten 8 (lifelogToSegments l).length (lifelogToSegments l)
        le_rfl
    have hsegs : (processLifelog rt db l).segments =
        db.segments.filter (fun s => s.entryId != l.id) ++
          lifelogToSegments l := by
      rw [processLifelog, if_pos hlen]
      simpa using hflat
    refine ⟨hsegs, ?_⟩
    rw [hsegs, List.filter_append]
    have h1 : (db.segments.filter (fun s => s.entryId != l.id)).filter
        (fun s => s.entryId == l.id) = [] := by
      rw [List.filter_filter]
      apply List.filter_eq_nil_iff.mpr
      intro a ha
      by_cases hc : a.entryId = l.id <;> simp [hc]
    have h2 : (lifelogToSegments l).filter (fun s => s.entryId == l.id) =
        lifelogToSegments l := by
      apply List.filter_eq_self.mpr
      intro a ha
      simp [lifelogToSegments_entryId l a ha]
    rw [h1, h2, List.nil_append]
  · intro hnil
    rw [processLifelog, if_neg (by rw [hnil]; simp)]

/-- Claim C4 (counterexample): an entry `e1` stored with one segment,
re-synced from a provider item whose content field is absent (flattened
segment list empty), keeps its previously stored segment — the store's
segment set for `e1` is not the (empty) flattened list. -/
theorem segment_replace_empty_cex :
    lifelogToSegments emptyContentsItemE1 = [] ∧
    (processLifelog rtTest
      { entries := [], segments := [oldSegmentE1], syncState := [] }
      emptyContentsItemE1).segments = [oldSegmentE1] ∧
    oldSegmentE1.entryId = emptyContentsItemE1.id :=
  ⟨rfl, rfl, rfl⟩

/-- Witness for C4: the amended theorem applied at a concrete item with
two content nodes (non-empty branch: the store's segment set for the
entry becomes exactly the flattened list) and at the empty-contents item
(empty branch: the store is unchanged). -/
theorem segment_replace_semantics_witness :
    (processLifelog rtTest
      { entries := [], segments := [oldSegmentE1], syncState := [] }
      twoNodeItemE1).segments.filter (fun s => s.entryId == "e1") =
      lifelogToSegments twoNodeItemE1 ∧
    (processLifelog rtTest
      { entries := [], segments := [oldSegmentE1], syncState := [] }
      emptyContentsItemE1).segments = [oldSegmentE1] :=
  ⟨((segment_replace_semantics rtTest
      { entries := [], segments := [oldSegmentE1], syncState := [] }
      twoNodeItemE1).1
      (by simp [twoNodeItemE1, lifelogToSegments, flattenNodes,
        flattenFrom])).2,
   (segment_replace_semantics rtTest
      { entries := [], segments := [oldSegmentE1], syncState := [] }
      emptyContentsItemE1).2 rfl⟩

theorem syncLoop_trace (rt : JsRuntime) :
    ∀ (pages : List LimitlessPage) (k : Nat) (cursor : Option String)
      (db : SyncDb) (processed : Nat) (last : Option String)
      (hk : k < pages.length),
      (∀ j (hj : j < k),
        jsTruthyStr (pages.get ⟨j, Nat.lt_trans hj hk⟩).nextCursor = true) →
      jsTruthyStr (pages.get ⟨k, hk⟩).nextCursor = false →
      ∃ out, syncLoop rt pages cursor db processed last = some out ∧
        out.2.2.2 = cursor :: (pages.take k).map (fun p => p.nextCursor) := by
  intro pages
  induction pages with
  | nil =>
      intro k cursor db processed last hk
      exact absurd hk (by simp)
  | cons page rest ih =>
      intro k cursor db processed last hk hcont hterm
      cases k with
      | zero =>
          rw [syncLoop]
          have hfalse : jsTruthyStr page.nextCursor = false := hterm
          rw [if_neg (by rw [hfalse]; simp)]
          exact ⟨_, rfl, rfl⟩
      | succ k1 =>
          rw [syncLoop]
          have htrue : jsTruthyStr page.nextCursor = true :=
            hcont 0 (Nat.succ_pos k1)
          rw [if_pos (by rw [htrue])]
          have hk1 : k1 < rest.length := Nat.lt_of_succ_lt_succ hk
          obtain ⟨out, hout, htrace⟩ :=
            ih k1 page.nextCursor
              (processPage rt (db, processed, last) page.lifelogs).1
              (processPage rt (db, processed, last) page.lifelogs).2.1
              (processPage rt (db, processed, last) page.lifelogs).2.2
              hk1
              (fun j hj => hcont (j + 1) (Nat.succ_lt_succ hj))
              hterm
          refine ⟨(out.1, out.2.1, out.2.2.1, cursor :: out.2.2.2), ?_, ?_⟩
          · rw [hout]
            rfl
          · simp only [htrace, List.take_succ_cons, List.map_cons]

/-- Claim C6: for a provider whose successive responses carry cursors
ending in an absent-or-null cursor (the first falsy cursor being at
response index k), the sync pagination loop calls the provider exactly
once per response — the first call with no cursor and each later call fed
the previous response's cursor — and stops right after response k, for a
total of k + 1 calls. -/
theorem pagination_termination (rt : JsRuntime) (key : String)
    (pages : List LimitlessPage) (db : SyncDb) (k : Nat)
    (hkey1 : key ≠ "skip") (hkey2 : key ≠ "")
    (hk : k < pages.length)
    (hcont : ∀ j (hj : j < k),
      jsTruthyStr (pages.get ⟨j, Nat.lt_trans hj hk⟩).nextCursor = true)
    (hterm : jsTruthyStr (pages.get ⟨k, hk⟩).nextCursor = false) :
    ∃ out, syncLifelogs rt false (some key) pages db = some out ∧
      out.2.2 = none :: (pages.take k).map (fun p => p.nextCursor) ∧
      out.2.2.length = k + 1 := by
  obtain ⟨lout, hlout, htrace⟩ :=
    syncLoop_trace rt pages k none db 0 none hk hcont hterm
  unfold syncLifelogs
  rw [if_neg (by simp [hkey1]), if_neg (by simp [jsTruthyStr, hkey2]),
    hlout]
  refine ⟨_, rfl, ?_, ?_⟩
  · exact htrace
  · rw [htrace]
    simp only [List.length_cons, List.length_map]
    rw [List.length_take_of_le (Nat.le_of_lt hk)]

/-- Witness for C6: the specification's example — cursors c1, c2, then
null — makes exactly 3 provider calls, fed no cursor, c1, then c2. -/
theorem pagination_termination_witness :
    ∃ out, syncLifelogs rtTest false (some "key")
        [{ lifelogs := [], nextCursor := some "c1" },
         { lifelogs := [], nextCursor := some "c2" },
         { lifelogs := [], nextCursor := none }]
        { entries := [], segments := [], syncState := [] } =
          some out ∧
      out.2.2 = [none, some "c1", some "c2"] ∧
      out.2.2.length = 3 := by
  obtain ⟨out, h1, h2, h3⟩ :=
    pagination_termination rtTest "key"
      [{ lifelogs := [], nextCursor := some "c1" },
       { lifelogs := [], nextCursor := some "c2" },
       { lifelogs := [], nextCursor := none }]
      { entries := [], segments := [], syncState := [] }
      2 (by decide) (by decide) (by decide) (by decide) (by decide)
  exact ⟨out, h1, h2, h3⟩

theorem processLifelog_syncState (rt : JsRuntime) (db : SyncDb)
    (l : LimitlessLifelog) :
    (processLifelog rt db l).syncState = db.syncState := by
  rw [processLifelog]
  split <;> rfl

theorem processPage_syncState (rt : JsRuntime) :
    ∀ (items : List LimitlessLifelog) (acc : SyncDb × Nat × Option String),
      (processPage rt acc items).1.syncState = acc.1.syncState := by
  intro items
  induction items with
  | nil => intro acc; rfl
  | cons l rest ih =>
      intro acc
      have h1 : processPage rt acc (l :: rest) =
          processPage rt
            (processLifelog rt acc.1 l, acc.2.1 + 1,
              trackLastUpdated acc.2.2 (lifelogToEntry rt l).updatedAt)
            rest := rfl
      rw [h1, ih]
      exact processLifelog_syncState rt acc.1 l

theorem syncLoop_syncState (rt : JsRuntime) :
    ∀ (pages : List LimitlessPage) (cursor : Option String) (db : SyncDb)
      (processed : Nat) (last : Option String)
      (out : SyncDb × Nat × Option String × List (Option String)),
      syncLoop rt pages cursor db processed last = some out →
      out.1.syncState = db.syncState := by
  intro pages
  induction pages with
  | nil =>
      intro cursor db processed last out h
      simp [syncLoop] at h
  | cons page rest ih =>
      intro cursor db processed last out h
      rw [syncLoop] at h
      by_cases hc : jsTruthyStr page.nextCursor = true
      · rw [if_pos hc] at h
        rcases Option.map_eq_some'.mp h with ⟨out2, hrec, heq⟩
        have hst := ih page.nextCursor
          (processPage rt (db, processed, last) page.lifelogs).1
          (processPage rt (db, processed, last) page.lifelogs).2.1
          (processPage rt (db, processed, last) page.lifelogs).2.2
          out2 hrec
        rw [← heq]
        rw [hst]
        exact processPage_syncState rt page.lifelogs (db, processed, last)
      · rw [if_neg hc] at h
        have heq := Option.some.inj h
        rw [← heq]
        exact processPage_syncState rt page.lifelogs (db, processed, last)

theorem find?_key_map_other (key key' v : String) (hne : key' ≠ key) :
    ∀ (l : SyncStateMap),
      (l.map (fun p => if p.1 = key then (key, some v) else p)).find?
        (fun p => p.1 = key') = l.find? (fun p => p.1 = key') := by
  intro l
  induction l with
  | nil => rfl
  | cons a rest ih =>
      by_cases ha : a.1 = key
      · have h1 : ¬(key = key') := fun h => hne h.symm
        have h2 : ¬(a.1 = key') := by rw [ha]; exact h1
        simp [List.find?, ha, h1, h2, ih]
      · by_cases ha2 : a.1 = key'
        · have h3 : ¬(key' = key) := hne
          simp [List.find?, ha, ha2, h3]
        · simp [List.find?, ha, ha2, ih]

theorem find?_key_append_other (key key' v : String) (hne : key' ≠ key) :
    ∀ (l : SyncStateMap),
      (l ++ [(key, some v)]).find? (fun p => p.1 = key') =
        l.find? (fun p => p.1 = key') := by
  intro l
  induction l with
  | nil =>
      have h1 : ¬(key = key') := fun h => hne h.symm
      simp [List.find?, h1]
  | cons a rest ih =>
      by_cases ha : a.1 = key'
      · simp [List.find?, ha]
      · simp [List.find?, ha, ih]

theorem find?_key_map_same (key v : String) :
    ∀ (l : SyncStateMap), l.any (fun p => p.1 = key) = true →
      (l.map (fun p => if p.1 = key then (key, some v) else p)).find?
        (fun p => p.1 = key) = some (key, some v) := by
  intro l
  induction l with
  | nil =>
      intro h
      simp at h
  | cons a rest ih =>
      intro h
      by_cases ha : a.1 = key
      · simp [List.find?, ha]
      · have h2 : rest.any (fun p => p.1 = key) = true := by
          simpa [List.any_cons, ha] using h
        simp [List.find?, ha, ih h2]

theorem find?_key_append_same (key v : String) :
    ∀ (l : SyncStateMap), l.any (fun p => p.1 = key) = false →
      (l ++ [(key, some v)]).find? (fun p => p.1 = key) =
        some (key, some v) := by
  intro l
  induction l with
  | nil =>
      intro h
      simp [List.find?]
  | cons a rest ih =>
      intro h
      simp only [List.any_cons, Bool.or_eq_false_iff,
        decide_eq_false_iff_not] at h
      simp [List.find?, h.1, ih h.2]

theorem getSyncStateValue_upsert_same (kv : SyncStateMap) (key v : String) :
    getSyncStateValue (upsertSyncState kv key v) key = some v := by
  unfold upsertSyncState getSyncStateValue
  by_cases h : kv.any (fun p => p.1 = key) = true
  · rw [if_pos h, find?_key_map_same key v kv h]
    rfl
  · have h2 : kv.any (fun p => p.1 = key) = false := by
      revert h
      cases kv.any (fun p => p.1 = key) <;> simp
    rw [if_neg (by rw [h2]; simp), find?_key_append_same key v kv h2]
    rfl

theorem getSyncStateValue_upsert_other (kv : SyncStateMap)
    (key key' v : String) (hne : key' ≠ key) :
    getSyncStateValue (upsertSyncState kv key v) key' =
      getSyncStateValue kv key' := by
  unfold upsertSyncState getSyncStateValue
  by_cases h : kv.any (fun p => p.1 = key) = true
  · rw [if_pos h, find?_key_map_other key key' v hne kv]
  · rw [if_neg h, find?_key_append_other key key' v hne kv]

/-- Claim C8 (amended): every sync invocation that completes its
pagination loop without error persists a fresh lastSyncedAt stamp —
including a zero-item pass — but persists the lifelog:lastUpdatedAt
cursor only when some processed item produced a truthy update timestamp;
a zero-item pass leaves the stored cursor untouched. -/
theorem sync_state_persistence (rt : JsRuntime) (key : String)
    (pages : List LimitlessPage) (db : SyncDb)
    (out : SyncStats × SyncDb × List (Option String))
    (hkey1 : key ≠ "skip") (hkey2 : key ≠ "")
    (hrun : syncLifelogs rt false (some key) pages db = some out) :
    getSyncStateValue out.2.1.syncState LAST_SYNC_KEY = some rt.nowIso ∧
    (jsTruthyStr out.1.lastUpdatedAt = true →
      getSyncStateValue out.2.1.syncState LAST_UPDATED_KEY =
        some (nullishD out.1.lastUpdatedAt "")) ∧
    (jsTruthyStr out.1.lastUpdatedAt = false →
      getSyncStateValue out.2.1.syncState LAST_UPDATED_KEY =
        getSyncStateValue db.syncState LAST_UPDATED_KEY) := by
  unfold syncLifelogs at hrun
  rw [if_neg (by simp [hkey1]), if_neg (by simp [jsTruthyStr, hkey2])]
    at hrun
  cases hloop : syncLoop rt pages none db 0 none with
  | none =>
      rw [hloop] at hrun
      exact absurd hrun (by simp)
  | some lout =>
      obtain ⟨db1, processed, last, trace⟩ := lout
      rw [hloop] at hrun
      have hpres : db1.syncState = db.syncState :=
        syncLoop_syncState rt pages none db 0 none
          (db1, processed, last, trace) hloop
      have hne : LAST_UPDATED_KEY ≠ LAST_SYNC_KEY := by decide
      have heq := Option.some.inj hrun
      rw [← heq]
      by_cases hl : jsTruthyStr last = true
      · refine ⟨?_, ?_, ?_⟩
        · simp only [hl, if_true]
          exact getSyncStateValue_upsert_same _ _ _
        · intro _
          simp only [hl, if_true]
          rw [getSyncStateValue_upsert_other _ _ _ _ hne]
          exact getSyncStateValue_upsert_same _ _ _
        · intro hcon
          simp only [] at hcon
          rw [hl] at hcon
          exact absurd hcon (by simp)
      · have hl2 : jsTruthyStr last = false := by
          revert hl
          cases jsTruthyStr last <;> simp
        refine ⟨?_, ?_, ?_⟩
        · simp only [hl2, if_false, Bool.false_eq_true]
          exact getSyncStateValue_upsert_same _ _ _
        · intro hcon
          simp only [] at hcon
          rw [hl2] at hcon
          exact absurd hcon (by simp)
        · intro _
          simp only [hl2, if_false, Bool.false_eq_true]
          rw [getSyncStateValue_upsert_other _ _ _ _ hne]
          exact congrArg (fun kv => getSyncStateValue kv LAST_UPDATED_KEY)
            hpres

/-- Claim C8 (counterexample): a completed zero-item sync pass stamps
lastSyncedAt but does not write the lifelog:lastUpdatedAt cursor — on an
initially empty SyncState the cursor key is still absent afterwards. -/
theorem zero_item_sync_cex :
    (syncLifelogs rtTest false (some "key")
        [{ lifelogs := [], nextCursor := none }]
        { entries := [], segments := [], syncState := [] }).map
      (fun out => (getSyncStateValue out.2.1.syncState LAST_UPDATED_KEY,
        getSyncStateValue out.2.1.syncState LAST_SYNC_KEY,
        out.1.processed)) =
    some (none, some "2024-01-01T00:00:00.000Z", 0) := by
  rfl

/-- Witness for C8: the amended theorem applied to the concrete zero-item
run — the lastSyncedAt stamp is persisted. -/
theorem sync_state_persistence_witness :
    ∃ out, syncLifelogs rtTest false (some "key")
        [{ lifelogs := [], nextCursor := none }]
        { entries := [], segments := [], syncState := [] } =
          some out ∧
      getSyncStateValue out.2.1.syncState LAST_SYNC_KEY =
        some rtTest.nowIso := by
  cases hrun : syncLifelogs rtTest false (some "key")
      [{ lifelogs := [], nextCursor := none }]
      { entries := [], segments := [], syncState := [] } with
  | none =>
      have hsome : (syncLifelogs rtTest false (some "key")
          [{ lifelogs := [], nextCursor := none }]
          { entries := [], segments := [],
            syncState := [] }).isNone = false := rfl
      rw [hrun] at hsome
      simp at hsome
  | some out =>
      exact ⟨out, rfl,
        (sync_state_persistence rtTest "key"
          [{ lifelogs := [], nextCursor := none }]
          { entries := [], segments := [], syncState := [] }
          out (by decide) (by decide) hrun).1⟩

theorem upsertAnalysisRow_append (rows : List AnalysisRow) (r : AnalysisRow)
    (h : ∀ x ∈ rows, ¬(x.entryId = r.entryId ∧ x.version = r.version)) :
    upsertAnalysisRow rows r = rows ++ [r] := by
  unfold upsertAnalysisRow
  rw [if_neg]
  intro hc
  rcases List.any_eq_true.mp hc with ⟨x, hx, hxc⟩
  simp only [Bool.and_eq_true, decide_eq_true_eq] at hxc
  exact h x hx hxc

theorem take_succ_subset (l : List α) (n : Nat) :
    l.take n ⊆ l.take (n + 1) := by
  intro x hx
  have h1 : x ∈ (l.take (n + 1)).take n := by
    rw [List.take_take]
    simpa [Nat.min_def] using hx
  exact List.take_subset _ _ h1

theorem analyzeLoop_rate_limit (infer : String → InferOutcome) :
    ∀ (cands : List Candidate) (k : Nat) (db : AnaDb)
      (hk : k < cands.length),
      (∀ c ∈ cands.take k, c.id ≠ "" ∧ (infer c.id).isOk = true) →
      (∀ c ∈ cands.take k, ∀ r ∈ db.analyses,
        ¬(r.entryId = c.id ∧ r.version = ANALYSIS_VERSION)) →
      ((cands.take (k + 1)).map (fun c => c.id)).Nodup →
      (cands.get ⟨k, hk⟩).id ≠ "" →
      (∃ msg, infer ((cands.get ⟨k, hk⟩).id) = .err msg ∧
        isRateLimitMsg msg = true) →
      analyzeLoop infer cands db =
        ((cands.take k).map (fun c => c.id),
         [(cands.get ⟨k, hk⟩).id],
         { analyses := db.analyses ++
             (cands.take k).filterMap
               (fun c => rowOfOutcome c (infer c.id)),
           events := db.events ++
             (cands.take k).map (fun c => (c.id, "success")),
           syncState := db.syncState }) := by
  intro cands
  induction cands with
  | nil =>
      intro k db hk
      exact absurd hk (by simp)
  | cons c rest ih =>
      intro k db hk hok hfresh hnodup hid hrl
      cases k with
      | zero =>
          obtain ⟨msg, hmsg, hrlmsg⟩ := hrl
          have hcid : c.id ≠ "" := hid
          have hcmsg : infer c.id = .err msg := hmsg
          rw [analyzeLoop, if_neg hcid, hcmsg]
          simp only [hrlmsg, if_pos]
          simp
      | succ k1 =>
          obtain ⟨hcid, hcok⟩ := hok c (by
            rw [List.take_succ_cons]
            exact List.mem_cons_self c _)
          cases hinfer : infer c.id with
          | err m =>
              rw [hinfer] at hcok
              simp [InferOutcome.isOk] at hcok
          | ok modelUsed insights =>
              have hk1 : k1 < rest.length := Nat.lt_of_succ_lt_succ hk
              have hmapnodup := hnodup
              rw [List.take_succ_cons, List.map_cons,
                List.nodup_cons] at hmapnodup
              obtain ⟨hcnotin, hrestnodup⟩ := hmapnodup
              have hcmem : c ∈ (c :: rest).take (k1 + 1) := by
                rw [List.take_succ_cons]
                exact List.mem_cons_self c _
              have hrow : upsertAnalysisRow db.analyses
                  (mkAnalysisRow c modelUsed insights) =
                  db.analyses ++ [mkAnalysisRow c modelUsed insights] := by
                apply upsertAnalysisRow_append
                intro x hx hcon
                exact hfresh c hcmem x hx hcon
              have hok1 : ∀ c' ∈ rest.take k1,
                  c'.id ≠ "" ∧ (infer c'.id).isOk = true := by
                intro c' hc'
                exact hok c' (by
                  rw [List.take_succ_cons]
                  exact List.mem_cons_of_mem c hc')
              have hfresh1 : ∀ c' ∈ rest.take k1,
                  ∀ r ∈ db.analyses ++ [mkAnalysisRow c modelUsed insights],
                  ¬(r.entryId = c'.id ∧ r.version = ANALYSIS_VERSION) := by
                intro c' hc' r hr hcon
                rcases List.mem_append.mp hr with hr1 | hr1
                · exact hfresh c' (by
                      rw [List.take_succ_cons]
                      exact List.mem_cons_of_mem c hc') r hr1 hcon
                · have hrc : r = mkAnalysisRow c modelUsed insights := by
                    simpa using hr1
                  apply hcnotin
                  have hcc : c.id = c'.id := by
                    rw [← hcon.1, hrc]
                    rfl
                  rw [hcc]
                  exact List.mem_map_of_mem (fun x => x.id)
                    (take_succ_subset rest k1 hc')
              have hid1 : (rest.get ⟨k1, hk1⟩).id ≠ "" := hid
              have hrl1 : ∃ msg, infer ((rest.get ⟨k1, hk1⟩).id) =
                  .err msg ∧ isRateLimitMsg msg = true := hrl
              have hrec := ih k1
                { analyses := db.analyses ++
                    [mkAnalysisRow c modelUsed insights],
                  events := db.events ++ [(c.id, "success")],
                  syncState := db.syncState }
                hk1 hok1 hfresh1 hrestnodup hid1 hrl1
              rw [analyzeLoop, if_neg hcid, hinfer]
              dsimp only
              rw [hrow, hrec]
              simp [List.take_succ_cons, List.filterMap_cons, hinfer,
                rowOfOutcome, List.append_assoc]

theorem filterMap_rows_cons_ok (infer : String → InferOutcome)
    (c : Candidate) (rest : List Candidate) (m ins : String)
    (hinfer : infer c.id = .ok m ins) :
    List.filterMap (fun c => rowOfOutcome c (infer c.id)) (c :: rest) =
      mkAnalysisRow c m ins ::
        List.filterMap (fun c => rowOfOutcome c (infer c.id)) rest := by
  rw [List.filterMap_cons]
  simp [hinfer, rowOfOutcome]

theorem filterMap_rows_ids (infer : String → InferOutcome) :
    ∀ (l : List Candidate), (∀ c ∈ l, (infer c.id).isOk = true) →
      (l.filterMap (fun c => rowOfOutcome c (infer c.id))).map
        (fun r => r.entryId) = l.map (fun c => c.id) := by
  intro l
  induction l with
  | nil => intro h; rfl
  | cons c rest ih =>
      intro h
      have hc := h c (List.mem_cons_self c rest)
      cases hinfer : infer c.id with
      | err m =>
          rw [hinfer] at hc
          simp [InferOutcome.isOk] at hc
      | ok m ins =>
          rw [filterMap_rows_cons_ok infer c rest m ins hinfer,
            List.map_cons, List.map_cons,
            ih (fun c' hc' => h c' (List.mem_cons_of_mem c hc'))]
          rfl

theorem filterMap_rows_mem (infer : String → InferOutcome) :
    ∀ (l : List Candidate), (∀ c ∈ l, (infer c.id).isOk = true) →
      ∀ c ∈ l, ∃ r ∈ l.filterMap (fun c => rowOfOutcome c (infer c.id)),
        r.entryId = c.id ∧ r.version = ANALYSIS_VERSION ∧
        r.payloadHash = c.summaryHash := by
  intro l
  induction l with
  | nil =>
      intro h c hc
      simp at hc
  | cons c0 rest ih =>
      intro h c hc
      have hc0 := h c0 (List.mem_cons_self c0 rest)
      cases hinfer : infer c0.id with
      | err m =>
          rw [hinfer] at hc0
          simp [InferOutcome.isOk] at hc0
      | ok m ins =>
          rw [filterMap_rows_cons_ok infer c0 rest m ins hinfer]
          rcases List.mem_cons.mp hc with hceq | hcrest
          · subst hceq
            exact ⟨mkAnalysisRow c m ins,
              List.mem_cons_self _ _, rfl, rfl, rfl⟩
          · obtain ⟨r, hrmem, hrprops⟩ :=
              ih (fun c' hc' => h c' (List.mem_cons_of_mem c0 hc'))
                c hcrest
            exact ⟨r, List.mem_cons_of_mem _ hrmem, hrprops⟩

/-- Claim C2: for a fresh analysis store and distinct nonempty candidate
ids, if all candidates before position k succeed and candidate k's
inference raises a rate-limit error (message containing the code 1031),
the orchestrator run returns exactly the ids of candidates before k,
persists exactly their Analysis rows (payload hash pinned to each
candidate's fingerprint), persists nothing for candidate k or any later
candidate, and returns this partial result as a value rather than
propagating the error (the modelled run is a total function). -/
theorem analysis_rate_limit_short_circuit (rt : JsRuntime)
    (infer : String → InferOutcome) (cands : List Candidate) (k : Nat)
    (evs : List (String × String)) (ss : SyncStateMap)
    (hk : k < cands.length)
    (hok : ∀ c ∈ cands.take k, c.id ≠ "" ∧ (infer c.id).isOk = true)
    (hnodup : (cands.map (fun c => c.id)).Nodup)
    (hid : (cands.get ⟨k, hk⟩).id ≠ "")
    (hrl : ∃ msg, infer ((cands.get ⟨k, hk⟩).id) = .err msg ∧
      isRateLimitMsg msg = true) :
    (analyzeFreshEntriesRun rt infer cands
        { analyses := [], events := evs, syncState := ss }).1 =
      (cands.take k).map (fun c => c.id) ∧
    ((analyzeFreshEntriesRun rt infer cands
        { analyses := [], events := evs, syncState := ss }).2.analyses.map
      (fun r => r.entryId)) = (cands.take k).map (fun c => c.id) ∧
    (∀ c ∈ cands.take k,
      ∃ r ∈ (analyzeFreshEntriesRun rt infer cands
          { analyses := [], events := evs, syncState := ss }).2.analyses,
        r.entryId = c.id ∧ r.version = ANALYSIS_VERSION ∧
        r.payloadHash = c.summaryHash) ∧
    (∀ c ∈ cands.drop k,
      ∀ r ∈ (analyzeFreshEntriesRun rt infer cands
          { analyses := [], events := evs, syncState := ss }).2.analyses,
        r.entryId ≠ c.id) := by
  have hoks : ∀ c ∈ cands.take k, (infer c.id).isOk = true :=
    fun c hc => (hok c hc).2
  have hnoduptake : ((cands.take (k + 1)).map (fun c => c.id)).Nodup := by
    rw [List.map_take]
    exact (List.take_sublist (k + 1) _).nodup hnodup
  have hfreshnil : ∀ c ∈ cands.take k, ∀ r ∈ ([] : List AnalysisRow),
      ¬(r.entryId = c.id ∧ r.version = ANALYSIS_VERSION) := by
    intro c hc r hr
    simp at hr
  have hrun := analyzeLoop_rate_limit infer cands k
    { analyses := [], events := evs, syncState := ss }
    hk hok hfreshnil hnoduptake hid hrl
  have h1 : (analyzeFreshEntriesRun rt infer cands
      { analyses := [], events := evs, syncState := ss }).1 =
      (cands.take k).map (fun c => c.id) := by
    unfold analyzeFreshEntriesRun
    rw [hrun]
  have hana : (analyzeFreshEntriesRun rt infer cands
      { analyses := [], events := evs, syncState := ss }).2.analyses =
      (cands.take k).filterMap (fun c => rowOfOutcome c (infer c.id)) := by
    unfold analyzeFreshEntriesRun
    rw [hrun]
    dsimp only
    split <;> simp
  refine ⟨h1, ?_, ?_, ?_⟩
  · rw [hana]
    exact filterMap_rows_ids infer (cands.take k) hoks
  · intro c hc
    rw [hana]
    exact filterMap_rows_mem infer (cands.take k) hoks c hc
  · intro c hc r hr
    rw [hana] at hr
    have hrid : r.entryId ∈ (cands.take k).map (fun c => c.id) := by
      rw [← filterMap_rows_ids infer (cands.take k) hoks]
      exact List.mem_map_of_mem (fun r => r.entryId) hr
    have hsplit := hnodup
    rw [← List.take_append_drop k cands, List.map_append] at hsplit
    have hdisj := (List.nodup_append.mp hsplit).2.2
    intro heq
    exact hdisj hrid (by
      rw [heq]
      exact List.mem_map_of_mem (fun c => c.id) hc)

/-- Witness for C2 at the specification's example: with 5 candidates and
candidate 3 rate-limited, exactly candidates 1 and 2 are returned and
persisted. -/
theorem analysis_rate_limit_short_circuit_witness :
    (analyzeFreshEntriesRun rtTest c2Infer c2Candidates
        { analyses := [], events := [], syncState := [] }).1 =
      ["c1", "c2"] ∧
    ((analyzeFreshEntriesRun rtTest c2Infer c2Candidates
        { analyses := [], events := [],
          syncState := [] }).2.analyses.map
      (fun r => r.entryId)) = ["c1", "c2"] := by
  have h := analysis_rate_limit_short_circuit rtTest c2Infer c2Candidates
    2 [] [] (by decide) (by decide) (by decide) (by decide)
    ⟨"AiError: 1031 rate limited", rfl, by decide⟩
  exact ⟨h.1, h.2.1⟩

